import Mathlib

/-!
Verification of the equipment-lending service core: data model
(`models.py`), request validation and creation (`serializers.py`) and the
lifecycle transitions approve / reject / issue / return together with the
read-only availability query (`views.py`).

Time instants are modelled as `Int` (datetimes totally ordered),
quantities as `Nat`; the cached counter `available_quantity` is an `Int`
because nothing in the stored representation forces it non-negative.
Persistence is a list of equipment rows keyed by id plus a list of
borrow-request rows; each HTTP action is a function from the store to
either an error response (carrying the HTTP status code the view returns)
or the updated store.
-/

namespace EquipmentLending

/-- Status values of `BorrowRequest.STATUS_CHOICES` in `models.py`. -/
inductive Status where
  | pending
  | approved
  | rejected
  | issued
  | returned
  | overdue
  | cancelled
deriving DecidableEq, Repr

/-- Equipment row: the two quantity counters of the `Equipment` model
(`total_quantity`, `available_quantity`); the other columns play no role
in the claims under verification. -/
structure Equipment where
  total_quantity : Nat
  available_quantity : Int
deriving DecidableEq, Repr

/-- BorrowRequest row, from the `BorrowRequest` model in `models.py`. -/
structure BorrowRequest where
  pk : Nat
  equipment_id : Nat
  quantity : Nat
  status : Status
  borrow_from : Int
  borrow_until : Int
  approved_by : Option Nat := none
  approved_date : Option Int := none
  issued_date : Option Int := none
  returned_date : Option Int := none
  rejection_reason : String := ""
  notes : String := ""
deriving DecidableEq, Repr

/-- The persistent store: equipment rows keyed by id, and borrow-request
rows. -/
structure State where
  equipments : List (Nat × Equipment)
  requests : List BorrowRequest
deriving DecidableEq, Repr

/-- Error response of a view: message and HTTP status code. -/
structure ErrResponse where
  error : String
  http_status : Nat
deriving DecidableEq, Repr

/-- Row lookup by equipment id (Django `borrow_request.equipment`). -/
def getEquipment (s : State) (eid : Nat) : Option Equipment :=
  s.equipments.lookup eid

/-- Row lookup by request primary key (DRF `self.get_object()`). -/
def findRequest (s : State) (pk : Nat) : Option BorrowRequest :=
  s.requests.find? (fun r => r.pk == pk)

/-- The status filter `status__in=['approved', 'issued']` used by both
availability computations. -/
def isActiveStatus (st : Status) : Bool :=
  decide (st = .approved) || decide (st = .issued)

/-- `Equipment.save` from `models.py`: on every write, an
`available_quantity` above `total_quantity` is corrected down to
`total_quantity` before the row is persisted. -/
def Equipment.save (e : Equipment) : Equipment :=
  if e.available_quantity > (e.total_quantity : Int) then
    { e with available_quantity := (e.total_quantity : Int) }
  else
    e

/-- Write an equipment row back to the store (the persistence part of
`equipment.save()`; the clamp `Equipment.save` is applied by callers,
mirroring the method's body running before the row is stored). -/
def writeEquipment (l : List (Nat × Equipment)) (eid : Nat) (e : Equipment) :
    List (Nat × Equipment) :=
  l.map (fun p => if p.1 == eid then (eid, e) else p)

/-- Write a borrow-request row back to the store (`borrow_request.save()`):
the row with the same primary key is replaced. -/
def saveRequest (reqs : List BorrowRequest) (r : BorrowRequest) :
    List BorrowRequest :=
  reqs.map (fun x => if x.pk == r.pk then r else x)

/-- The queryset filter shared by `check_availability` and the
availability endpoint: same equipment, status in {approved, issued},
`borrow_from__lt=end_date`, `borrow_until__gt=start_date`. -/
def overlapsWindow (eid : Nat) (start_date end_date : Int)
    (r : BorrowRequest) : Bool :=
  (r.equipment_id == eid) &&
  isActiveStatus r.status &&
  decide (r.borrow_from < end_date) &&
  decide (r.borrow_until > start_date)

/-- `BorrowRequest.check_availability` from `models.py`: filter the stored
requests on the same equipment with status in {approved, issued} whose
interval overlaps the candidate half-open interval
(`borrow_from__lt=self.borrow_until, borrow_until__gt=self.borrow_from`),
exclude the candidate's own primary key, sum their quantities, and compare
`total_quantity - borrowed_quantity >= self.quantity`. -/
def check_availability (reqs : List BorrowRequest) (equipment : Equipment)
    (self : BorrowRequest) : Bool :=
  let overlapping :=
    (reqs.filter
      (overlapsWindow self.equipment_id self.borrow_from self.borrow_until)).filter
        (fun r => !(r.pk == self.pk))
  let borrowed_quantity : Nat := (overlapping.map (fun r => r.quantity)).sum
  let available : Int := (equipment.total_quantity : Int) - (borrowed_quantity : Int)
  decide (available ≥ (self.quantity : Int))

/-- `BorrowRequestSerializer.validate` from `serializers.py`: interval
order, past start date, and quantity ceiling are checked in this order,
each failure raising a `ValidationError` (HTTP 400). -/
def validate (equipment : Equipment) (quantity : Nat)
    (borrow_from borrow_until now : Int) : Option String :=
  if borrow_until ≤ borrow_from then
    some "Return date must be after borrow date"
  else if borrow_from < now then
    some "Borrow date cannot be in the past"
  else if quantity > equipment.total_quantity then
    some "Requested quantity exceeds total quantity"
  else
    none

/-- Fresh primary key for a newly persisted row (database auto-increment):
one more than the largest key in use. -/
def freshPk (reqs : List BorrowRequest) : Nat :=
  (reqs.map (fun r => r.pk)).foldr max 0 + 1

/-- Creation flow of a borrow request: DRF runs
`BorrowRequestSerializer.validate` first (any failure is a 400 before
anything else runs), then `BorrowRequestSerializer.create` builds the
pending request, calls `check_availability`, and either raises a 400 or
persists the new row. -/
def createRequest (s : State) (eid : Nat) (quantity : Nat)
    (borrow_from borrow_until now : Int) : Except ErrResponse State :=
  match getEquipment s eid with
  | none => .error ⟨"Not found", 404⟩
  | some equipment =>
    match validate equipment quantity borrow_from borrow_until now with
    | some msg => .error ⟨msg, 400⟩
    | none =>
      let r : BorrowRequest :=
        { pk := freshPk s.requests, equipment_id := eid, quantity := quantity,
          status := .pending, borrow_from := borrow_from,
          borrow_until := borrow_until }
      if check_availability s.requests equipment r then
        .ok { s with requests := s.requests ++ [r] }
      else
        .error ⟨"Equipment not available for the requested period", 400⟩

/-- `BorrowRequestViewSet.approve`: only pending requests may be approved
(else HTTP 400 before any change); availability is re-checked excluding
the request itself (else HTTP 400); on success the status becomes
approved and approver and time are stamped. -/
def approve (s : State) (pk : Nat) (actor : Nat) (now : Int) :
    Except ErrResponse State :=
  match findRequest s pk with
  | none => .error ⟨"Not found", 404⟩
  | some br =>
    if br.status ≠ .pending then
      .error ⟨"Only pending requests can be approved", 400⟩
    else
      match getEquipment s br.equipment_id with
      | none => .error ⟨"Not found", 404⟩
      | some equipment =>
        if check_availability s.requests equipment br then
          let br' := { br with
            status := .approved, approved_by := some actor,
            approved_date := some now }
          .ok { s with requests := saveRequest s.requests br' }
        else
          .error ⟨"Equipment not available for requested period", 400⟩

/-- `BorrowRequestViewSet.reject`: only pending requests may be rejected
(else HTTP 400); on success status becomes rejected, with reason, actor
and time stamped. -/
def reject (s : State) (pk : Nat) (actor : Nat) (reason : String) (now : Int) :
    Except ErrResponse State :=
  match findRequest s pk with
  | none => .error ⟨"Not found", 404⟩
  | some br =>
    if br.status ≠ .pending then
      .error ⟨"Only pending requests can be rejected", 400⟩
    else
      let br' := { br with
        status := .rejected, rejection_reason := reason,
        approved_by := some actor, approved_date := some now }
      .ok { s with requests := saveRequest s.requests br' }

/-- `BorrowRequestViewSet.issue`: only approved requests may be issued
(else HTTP 400); the stock-on-hand check `available_quantity < quantity`
fails with HTTP 400; on success the counter is decremented, the equipment
row saved (with the write-time clamp), and the request becomes issued
with the issue time stamped. -/
def issue (s : State) (pk : Nat) (now : Int) : Except ErrResponse State :=
  match findRequest s pk with
  | none => .error ⟨"Not found", 404⟩
  | some br =>
    if br.status ≠ .approved then
      .error ⟨"Only approved requests can be issued", 400⟩
    else
      match getEquipment s br.equipment_id with
      | none => .error ⟨"Not found", 404⟩
      | some equipment =>
        if equipment.available_quantity < (br.quantity : Int) then
          .error ⟨"Insufficient equipment quantity", 400⟩
        else
          let e' := Equipment.save
            { equipment with available_quantity :=
                equipment.available_quantity - (br.quantity : Int) }
          let br' := { br with status := .issued, issued_date := some now }
          .ok { equipments := writeEquipment s.equipments br.equipment_id e',
                requests := saveRequest s.requests br' }

/-- `BorrowRequestViewSet.return_equipment`: only issued or overdue
requests may be returned (else HTTP 400); on success the counter is
incremented, the equipment row saved (with the write-time clamp), the
request becomes returned with the return time stamped, and the notes are
overwritten by the supplied notes when those are non-empty. -/
def return_equipment (s : State) (pk : Nat) (notes : String) (now : Int) :
    Except ErrResponse State :=
  match findRequest s pk with
  | none => .error ⟨"Not found", 404⟩
  | some br =>
    if ¬ (br.status = .issued ∨ br.status = .overdue) then
      .error ⟨"Only issued requests can be returned", 400⟩
    else
      match getEquipment s br.equipment_id with
      | none => .error ⟨"Not found", 404⟩
      | some equipment =>
        let e' := Equipment.save
          { equipment with available_quantity :=
              equipment.available_quantity + (br.quantity : Int) }
        let br' := { br with
          status := .returned, returned_date := some now,
          notes := if notes ≠ "" then notes else br.notes }
        .ok { equipments := writeEquipment s.equipments br.equipment_id e',
              requests := saveRequest s.requests br' }

/-- `EquipmentViewSet.availability`: the read-only availability query
returns `total_quantity` minus the summed quantities of all approved or
issued requests on the equipment overlapping the queried interval — no
request is excluded and no clamping is applied. -/
def availability (reqs : List BorrowRequest) (equipment_id : Nat)
    (equipment : Equipment) (start_date end_date : Int) : Int :=
  let overlapping := reqs.filter (overlapsWindow equipment_id start_date end_date)
  let borrowed_quantity : Nat := (overlapping.map (fun r => r.quantity)).sum
  (equipment.total_quantity : Int) - (borrowed_quantity : Int)

/-- Client payload for creating an equipment item through the API: the
client supplies `total_quantity` and may or may not send an
`available_quantity` value. -/
structure EquipmentCreatePayload where
  total_quantity : Nat
  available_quantity : Option Int := none
deriving DecidableEq, Repr

/-- `EquipmentSerializer` creation path: `available_quantity` is listed in
`read_only_fields`, so any client-supplied value is dropped from the
validated data, and `create` then sets it to the supplied
`total_quantity`. -/
def equipmentSerializerCreate (payload : EquipmentCreatePayload) : Equipment :=
  { total_quantity := payload.total_quantity,
    available_quantity := (payload.total_quantity : Int) }

/-- The sequential operations of the lifecycle that the invariant claims
quantify over. -/
inductive Op where
  | create (eid quantity : Nat) (borrow_from borrow_until now : Int)
  | approve (pk actor : Nat) (now : Int)
  | reject (pk actor : Nat) (reason : String) (now : Int)
  | issue (pk : Nat) (now : Int)
  | ret (pk : Nat) (notes : String) (now : Int)

/-- Execute one operation against the store. -/
def execOp (s : State) : Op → Except ErrResponse State
  | .create eid q f u now => createRequest s eid q f u now
  | .approve pk actor now => approve s pk actor now
  | .reject pk actor reason now => reject s pk actor reason now
  | .issue pk now => issue s pk now
  | .ret pk notes now => return_equipment s pk notes now

/-- Apply one operation: a failed operation leaves the store unchanged
(every view returns its error response before mutating anything). -/
def applyOp (s : State) (op : Op) : State :=
  match execOp s op with
  | .ok s' => s'
  | .error _ => s

/-- Run a sequence of operations left to right. -/
def runOps (s : State) (ops : List Op) : State :=
  ops.foldl applyOp s

/-- Contribution of one request to the committed quantity on equipment
`eid` at instant `t`: its quantity when its status is approved or issued
and its half-open interval `[borrow_from, borrow_until)` covers `t`. -/
def coveringContrib (eid : Nat) (t : Int) (r : BorrowRequest) : Nat :=
  if r.equipment_id = eid ∧ (r.status = .approved ∨ r.status = .issued) ∧
      r.borrow_from ≤ t ∧ t < r.borrow_until then r.quantity else 0

/-- Sum of `quantity` over the requests on equipment `eid` with status in
{approved, issued} whose half-open interval `[borrow_from, borrow_until)`
covers the instant `t`. -/
def coveringSum (reqs : List BorrowRequest) (eid : Nat) (t : Int) : Nat :=
  (reqs.map (coveringContrib eid t)).sum

/-- The core capacity invariant: for every equipment item and every
instant, the committed quantity never exceeds the item's total. -/
def capacityInvariant (s : State) : Prop :=
  ∀ eid e, getEquipment s eid = some e →
    ∀ t : Int, coveringSum s.requests eid t ≤ e.total_quantity

/-- Structural well-formedness guaranteed by the database: primary keys of
borrow-request rows are unique. -/
def wellFormed (s : State) : Prop :=
  (s.requests.map (fun r => r.pk)).Nodup

/-- Counter invariant: every stored equipment row satisfies
`0 ≤ available_quantity ≤ total_quantity`. -/
def availInvariant (s : State) : Prop :=
  ∀ eid e, getEquipment s eid = some e →
    0 ≤ e.available_quantity ∧ e.available_quantity ≤ (e.total_quantity : Int)

/-- Contribution of one stored request to the overlap sum of the claims'
wording: its quantity when its status is approved or issued, its interval
overlaps the half-open window `[f, u)` (`r.borrow_from < u` and
`r.borrow_until > f`), and its key is not the excluded one. -/
def overlapContribSpec (eid : Nat) (f u : Int) (excl : Option Nat)
    (r : BorrowRequest) : Nat :=
  if r.equipment_id = eid ∧ (r.status = .approved ∨ r.status = .issued) ∧
      r.borrow_from < u ∧ r.borrow_until > f ∧ ¬ excl = some r.pk
  then r.quantity else 0

/-- Sum of `quantity` over stored requests on equipment `eid` with status
in {approved, issued} overlapping the half-open interval `[f, u)`,
excluding the request whose primary key is `excl` when one is given. -/
def overlapSumSpec (reqs : List BorrowRequest) (eid : Nat) (f u : Int)
    (excl : Option Nat) : Nat :=
  (reqs.map (overlapContribSpec eid f u excl)).sum

/-- HTTP status code of a view's outcome: the code of the error response,
or none when the call succeeded. -/
def httpStatusOf : Except ErrResponse State → Option Nat
  | .error err => some err.http_status
  | .ok _ => none

/-- Demo equipment row: total 5, available 5. -/
def demoEquipment : Equipment :=
  { total_quantity := 5, available_quantity := 5 }

/-- Demo approved request for 2 units on `[1, 3)`. -/
def demoRequest : BorrowRequest :=
  { pk := 1, equipment_id := 1, quantity := 2, status := .approved,
    borrow_from := 1, borrow_until := 3 }

/-- Demo store: one equipment row and one approved request. -/
def demoState : State :=
  { equipments := [(1, demoEquipment)], requests := [demoRequest] }

/-- Equipment row with 2 of 5 units out on loan. -/
def issuedEquipment : Equipment :=
  { total_quantity := 5, available_quantity := 3 }

/-- Issued request for 2 units carrying earlier notes. -/
def issuedRequest : BorrowRequest :=
  { pk := 1, equipment_id := 1, quantity := 2, status := .issued,
    borrow_from := 1, borrow_until := 3, notes := "old" }

/-- Demo store with an issued request carrying earlier notes. -/
def issuedState : State :=
  { equipments := [(1, issuedEquipment)], requests := [issuedRequest] }

/-- Demo store with no requests. -/
def emptyState : State :=
  { equipments := [(1, demoEquipment)], requests := [] }

/-- Stored notes of the request `pk` after an operation outcome: none when
the operation failed or the request is absent. -/
def notesOf (res : Except ErrResponse State) (pk : Nat) : Option String :=
  match res with
  | .ok s' => (findRequest s' pk).map (fun r => r.notes)
  | .error _ => none

/-- Two approved requests on `[0, 10)` whose quantities sum to 7, above a
total of 5: the read-only availability query goes negative on them. -/
def overCommitReqs : List BorrowRequest :=
  [{ pk := 1, equipment_id := 1, quantity := 3, status := .approved,
     borrow_from := 0, borrow_until := 10 },
   { pk := 2, equipment_id := 1, quantity := 4, status := .approved,
     borrow_from := 0, borrow_until := 10 }]

/-- Approved request for all 5 units on `[1, 3)`. -/
def touchStored : BorrowRequest :=
  { pk := 1, equipment_id := 1, quantity := 5, status := .approved,
    borrow_from := 1, borrow_until := 3 }

/-- Candidate request on `[3, 5)`, starting exactly where `touchStored`
ends. -/
def touchCandidate : BorrowRequest :=
  { pk := 2, equipment_id := 1, quantity := 3, status := .pending,
    borrow_from := 3, borrow_until := 5 }

end EquipmentLending
namespace EquipmentLending

theorem sum_map_congr {l : List BorrowRequest} {f g : BorrowRequest → Nat}
    (h : ∀ x ∈ l, f x = g x) : (l.map f).sum = (l.map g).sum := by
  rw [List.map_congr_left h]

theorem sum_map_le {l : List BorrowRequest} {f g : BorrowRequest → Nat}
    (h : ∀ x ∈ l, f x ≤ g x) : (l.map f).sum ≤ (l.map g).sum :=
  List.sum_le_sum h

theorem sum_filter_map {α : Type} (p : α → Bool) (f : α → Nat) (l : List α) :
    ((l.filter p).map f).sum = (l.map (fun x => if p x then f x else 0)).sum := by
  induction l with
  | nil => rfl
  | cons x xs ih =>
    by_cases h : p x <;> simp [List.filter_cons, h, ih]

theorem findRequest_pk_eq {s : State} {pk : Nat} {br : BorrowRequest}
    (h : findRequest s pk = some br) : br.pk = pk := by
  unfold findRequest at h
  simpa using List.find?_some h

theorem findRequest_mem {s : State} {pk : Nat} {br : BorrowRequest}
    (h : findRequest s pk = some br) : br ∈ s.requests := by
  unfold findRequest at h
  exact List.mem_of_find?_eq_some h

theorem find_saveRequest (reqs : List BorrowRequest) (pk : Nat)
    (br br' : BorrowRequest) (h : reqs.find? (fun r => r.pk == pk) = some br)
    (hpk : br'.pk = pk) :
    (saveRequest reqs br').find? (fun r => r.pk == pk) = some br' := by
  induction reqs with
  | nil => simp [List.find?] at h
  | cons x xs ih =>
    unfold saveRequest
    simp only [List.map_cons]
    by_cases hx : (x.pk == br'.pk) = true
    · have hb : (br'.pk == pk) = true := by simp [hpk]
      simp [hx, List.find?_cons_of_pos, hb]
    · have hxpk : (x.pk == pk) = false := by
        rw [hpk] at hx
        simpa using hx
      rw [if_neg (by simp_all)]
      rw [List.find?_cons_of_neg _ (by simp [hxpk])] at h ⊢
      exact ih h

theorem saveRequest_map_pk (l : List BorrowRequest) (r : BorrowRequest) :
    (saveRequest l r).map (fun x => x.pk) = l.map (fun x => x.pk) := by
  unfold saveRequest
  rw [List.map_map]
  apply List.map_congr_left
  intro a _
  by_cases h : (a.pk == r.pk) = true
  · have ha : a.pk = r.pk := by simpa using h
    simp [Function.comp, h, ha]
  · simp [Function.comp, h]

theorem lookup_writeEquipment (l : List (Nat × Equipment)) (eid : Nat)
    (e : Equipment) (eid₂ : Nat) :
    (writeEquipment l eid e).lookup eid₂ =
      if eid₂ = eid then (l.lookup eid₂).map (fun _ => e) else l.lookup eid₂ := by
  induction l with
  | nil => simp [writeEquipment, List.lookup]
  | cons p tl ih =>
    obtain ⟨k, v⟩ := p
    show List.lookup eid₂
        ((if (k == eid) = true then (eid, e) else (k, v)) :: writeEquipment tl eid e) =
      if eid₂ = eid then (List.lookup eid₂ ((k, v) :: tl)).map (fun _ => e)
      else List.lookup eid₂ ((k, v) :: tl)
    by_cases hk : k = eid
    · subst hk
      rw [if_pos (by simp)]
      by_cases h2 : eid₂ = k
      · subst h2
        rw [List.lookup_cons, List.lookup_cons]
        simp
      · have hb : (eid₂ == k) = false := by simpa using h2
        rw [List.lookup_cons, List.lookup_cons]
        simp [hb, h2, ih]
    · rw [if_neg (by simpa using hk)]
      by_cases h2 : eid₂ = k
      · subst h2
        have hne : ¬ eid₂ = eid := hk
        rw [List.lookup_cons, List.lookup_cons]
        simp [hne]
      · have hb : (eid₂ == k) = false := by simpa using h2
        rw [List.lookup_cons, List.lookup_cons]
        simp [hb, ih]

theorem le_foldr_max (l : List Nat) (x : Nat) (h : x ∈ l) :
    x ≤ l.foldr max 0 := by
  induction l with
  | nil => simp at h
  | cons y ys ih =>
    rcases List.mem_cons.mp h with rfl | h'
    · exact le_max_left _ _
    · exact le_trans (ih h') (le_max_right _ _)

theorem freshPk_not_mem (reqs : List BorrowRequest) :
    freshPk reqs ∉ reqs.map (fun r => r.pk) := by
  intro h
  have := le_foldr_max _ _ h
  unfold freshPk at this
  omega

theorem Equipment.save_eq_self (e : Equipment)
    (h : e.available_quantity ≤ (e.total_quantity : Int)) :
    e.save = e := by
  unfold Equipment.save
  rw [if_neg (by omega)]

theorem Equipment.save_total (e : Equipment) :
    e.save.total_quantity = e.total_quantity := by
  unfold Equipment.save
  split
  · rfl
  · rfl

theorem Equipment.save_bounds (e : Equipment) (h0 : 0 ≤ e.available_quantity) :
    0 ≤ e.save.available_quantity ∧
    e.save.available_quantity ≤ (e.save.total_quantity : Int) ∧
    e.save.total_quantity = e.total_quantity := by
  unfold Equipment.save
  split
  · simp
  · constructor
    · exact h0
    · simp
      omega


theorem overlapsWindow_iff (eid : Nat) (f u : Int) (r : BorrowRequest) :
    overlapsWindow eid f u r = true ↔
      (r.equipment_id = eid ∧ (r.status = .approved ∨ r.status = .issued) ∧
       r.borrow_from < u ∧ r.borrow_until > f) := by
  simp [overlapsWindow, isActiveStatus, and_assoc]

theorem overlap_sum_none (reqs : List BorrowRequest) (eid : Nat) (f u : Int) :
    ((reqs.filter (overlapsWindow eid f u)).map (fun r => r.quantity)).sum
      = overlapSumSpec reqs eid f u none := by
  rw [sum_filter_map]
  unfold overlapSumSpec
  apply congrArg List.sum
  apply List.map_congr_left
  intro r _
  unfold overlapContribSpec
  by_cases h : overlapsWindow eid f u r = true
  · rw [if_pos h, if_pos]
    obtain ⟨h1, h2, h3, h4⟩ := (overlapsWindow_iff eid f u r).mp h
    exact ⟨h1, h2, h3, h4, by simp⟩
  · rw [if_neg h, if_neg]
    intro hc
    exact h ((overlapsWindow_iff eid f u r).mpr ⟨hc.1, hc.2.1, hc.2.2.1, hc.2.2.2.1⟩)

theorem overlap_sum_excl (reqs : List BorrowRequest) (self : BorrowRequest) :
    (((reqs.filter
        (overlapsWindow self.equipment_id self.borrow_from self.borrow_until)).filter
          (fun r => !(r.pk == self.pk))).map (fun r => r.quantity)).sum
      = overlapSumSpec reqs self.equipment_id self.borrow_from self.borrow_until
          (some self.pk) := by
  rw [List.filter_filter, sum_filter_map]
  unfold overlapSumSpec
  apply congrArg List.sum
  apply List.map_congr_left
  intro r _
  unfold overlapContribSpec
  by_cases hp : r.pk = self.pk
  · rw [if_neg, if_neg]
    · intro hc
      exact hc.2.2.2.2 (by simp [hp])
    · simp [hp]
  · by_cases h : overlapsWindow self.equipment_id self.borrow_from self.borrow_until r = true
    · rw [if_pos, if_pos]
      · obtain ⟨h1, h2, h3, h4⟩ := (overlapsWindow_iff _ _ _ r).mp h
        refine ⟨h1, h2, h3, h4, ?_⟩
        simp only [Option.some.injEq]
        omega
      · simp [hp, h]
    · rw [if_neg, if_neg]
      · intro hc
        exact h ((overlapsWindow_iff _ _ _ r).mpr ⟨hc.1, hc.2.1, hc.2.2.1, hc.2.2.2.1⟩)
      · simp [h]

theorem check_availability_eq (reqs : List BorrowRequest) (e : Equipment)
    (self : BorrowRequest) :
    check_availability reqs e self =
      decide ((e.total_quantity : Int) -
        (overlapSumSpec reqs self.equipment_id self.borrow_from self.borrow_until
          (some self.pk) : Int) ≥ (self.quantity : Int)) := by
  unfold check_availability
  simp only [overlap_sum_excl]

theorem check_availability_iff (reqs : List BorrowRequest) (e : Equipment)
    (self : BorrowRequest) :
    check_availability reqs e self = true ↔
      (e.total_quantity : Int) -
        (overlapSumSpec reqs self.equipment_id self.borrow_from self.borrow_until
          (some self.pk) : Int) ≥ (self.quantity : Int) := by
  rw [check_availability_eq]
  exact decide_eq_true_iff

theorem availability_eq (reqs : List BorrowRequest) (eid : Nat) (e : Equipment)
    (start_date end_date : Int) :
    availability reqs eid e start_date end_date =
      (e.total_quantity : Int) -
        (overlapSumSpec reqs eid start_date end_date none : Int) := by
  unfold availability
  simp only [overlap_sum_none]


theorem coveringContrib_le_quantity (eid : Nat) (t : Int) (r : BorrowRequest) :
    coveringContrib eid t r ≤ r.quantity := by
  unfold coveringContrib
  split
  · exact le_refl _
  · exact Nat.zero_le _

theorem coveringContrib_zero_of_status (eid : Nat) (t : Int) (r : BorrowRequest)
    (h : ¬ (r.status = .approved ∨ r.status = .issued)) :
    coveringContrib eid t r = 0 := by
  unfold coveringContrib
  rw [if_neg]
  tauto

theorem coveringContrib_le_overlapContrib (br : BorrowRequest) (t : Int)
    (r : BorrowRequest) (ht1 : br.borrow_from ≤ t) (ht2 : t < br.borrow_until)
    (hpk : ¬ r.pk = br.pk) :
    coveringContrib br.equipment_id t r ≤
      overlapContribSpec br.equipment_id br.borrow_from br.borrow_until
        (some br.pk) r := by
  unfold coveringContrib overlapContribSpec
  split
  case isTrue h =>
    rw [if_pos]
    refine ⟨h.1, h.2.1, by omega, by omega, ?_⟩
    simp only [Option.some.injEq]
    omega
  case isFalse h => exact Nat.zero_le _

theorem saveRequest_eq_self (l : List BorrowRequest) (r : BorrowRequest)
    (h : ∀ x ∈ l, ¬ x.pk = r.pk) : saveRequest l r = l := by
  unfold saveRequest
  conv_rhs => rw [← List.map_id l]
  apply List.map_congr_left
  intro x hx
  rw [if_neg (by simpa using h x hx)]
  rfl

theorem saveRequest_coveringSum_le (br' : BorrowRequest) (eid : Nat) (t : Int)
    (excl : Nat) (hpk : br'.pk = excl) (f u : Int) (l : List BorrowRequest)
    (hnd : (l.map (fun r => r.pk)).Nodup)
    (hpoint : ∀ x ∈ l, ¬ x.pk = excl →
      coveringContrib eid t x ≤ overlapContribSpec eid f u (some excl) x) :
    coveringSum (saveRequest l br') eid t ≤
      overlapSumSpec l eid f u (some excl) + coveringContrib eid t br' := by
  induction l with
  | nil =>
    simp [coveringSum, saveRequest]
  | cons x xs ih =>
    have hnd' : (xs.map (fun r => r.pk)).Nodup := (List.nodup_cons.mp hnd).2
    have hx_not : x.pk ∉ xs.map (fun r => r.pk) := (List.nodup_cons.mp hnd).1
    have hcons : saveRequest (x :: xs) br' =
        (if (x.pk == br'.pk) = true then br' else x) :: saveRequest xs br' := rfl
    have hsum : coveringSum ((if (x.pk == br'.pk) = true then br' else x) ::
        saveRequest xs br') eid t =
        coveringContrib eid t (if (x.pk == br'.pk) = true then br' else x) +
          coveringSum (saveRequest xs br') eid t := by
      unfold coveringSum
      simp
    have hspec : overlapSumSpec (x :: xs) eid f u (some excl) =
        overlapContribSpec eid f u (some excl) x +
          overlapSumSpec xs eid f u (some excl) := by
      unfold overlapSumSpec
      simp
    rw [hcons, hsum, hspec]
    by_cases hx : x.pk = excl
    · rw [if_pos (by simp [hpk, hx])]
      have hxs_ne : ∀ y ∈ xs, ¬ y.pk = br'.pk := by
        intro y hy hc
        exact hx_not (by
          rw [hpk] at hc
          rw [← hx] at hc
          exact hc ▸ List.mem_map_of_mem (fun r => r.pk) hy)
      rw [saveRequest_eq_self xs br' hxs_ne]
      have hxs_le : coveringSum xs eid t ≤ overlapSumSpec xs eid f u (some excl) := by
        unfold coveringSum overlapSumSpec
        apply sum_map_le
        intro y hy
        exact hpoint y (List.mem_cons_of_mem x hy)
          (by
            intro hc
            exact hxs_ne y hy (by rw [hpk, hc]))
      omega
    · rw [if_neg (by simp [hpk, hx])]
      have h1 : coveringContrib eid t x ≤ overlapContribSpec eid f u (some excl) x :=
        hpoint x (List.mem_cons_self x xs) hx
      have h2 := ih hnd' (fun y hy => hpoint y (List.mem_cons_of_mem x hy))
      omega

theorem saveRequest_coveringSum_le_of_zero (l : List BorrowRequest)
    (r : BorrowRequest) (eid : Nat) (t : Int)
    (h0 : coveringContrib eid t r = 0) :
    coveringSum (saveRequest l r) eid t ≤ coveringSum l eid t := by
  unfold coveringSum saveRequest
  rw [List.map_map]
  apply sum_map_le
  intro x _
  by_cases h : (x.pk == r.pk) = true
  · simp [Function.comp, h, h0]
  · simp [Function.comp, h]

theorem saveRequest_coveringSum_congr (l : List BorrowRequest)
    (r : BorrowRequest) (eid : Nat) (t : Int)
    (h : ∀ x ∈ l, x.pk = r.pk → coveringContrib eid t r = coveringContrib eid t x) :
    coveringSum (saveRequest l r) eid t = coveringSum l eid t := by
  unfold coveringSum saveRequest
  rw [List.map_map]
  apply congrArg List.sum
  apply List.map_congr_left
  intro x hx
  by_cases hb : (x.pk == r.pk) = true
  · have := h x hx (by simpa using hb)
    simp [Function.comp, hb, this]
  · simp [Function.comp, hb]

theorem coveringSum_append (l₁ l₂ : List BorrowRequest) (eid : Nat) (t : Int) :
    coveringSum (l₁ ++ l₂) eid t = coveringSum l₁ eid t + coveringSum l₂ eid t := by
  unfold coveringSum
  simp

theorem coveringContrib_issue (br : BorrowRequest) (now : Int)
    (h : br.status = .approved) (eid : Nat) (t : Int) :
    coveringContrib eid t { br with status := .issued, issued_date := some now } =
      coveringContrib eid t br := by
  unfold coveringContrib
  simp [h]

theorem pk_inj_of_nodup {l : List BorrowRequest}
    (h : (l.map (fun r => r.pk)).Nodup) {x y : BorrowRequest}
    (hx : x ∈ l) (hy : y ∈ l) (e : x.pk = y.pk) : x = y :=
  List.inj_on_of_nodup_map h hx hy e


theorem approve_ok_inv {s : State} {pk actor : Nat} {now : Int} {s' : State}
    (hwf : wellFormed s) (hinv : capacityInvariant s)
    (h : approve s pk actor now = .ok s') :
    wellFormed s' ∧ capacityInvariant s' := by
  unfold approve at h
  split at h
  · simp at h
  case _ br hf =>
    split at h
    · simp at h
    case _ hst =>
      push_neg at hst
      split at h
      · simp at h
      case _ e he =>
        split at h
        case isFalse => simp at h
        case isTrue hca =>
          injection h with h2
          subst h2
          refine ⟨?_, ?_⟩
          · have hnd : ((saveRequest s.requests
                { br with status := Status.approved, approved_by := some actor,
                          approved_date := some now }).map (fun r => r.pk)).Nodup := by
              rw [saveRequest_map_pk]
              exact hwf
            exact hnd
          · intro eid₂ e₂ hlook t
            have hlook₂ : getEquipment s eid₂ = some e₂ := hlook
            by_cases hque : eid₂ = br.equipment_id ∧ br.borrow_from ≤ t ∧
                t < br.borrow_until
            · obtain ⟨heid, ht1, ht2⟩ := hque
              subst heid
              have he₂ : e₂ = e := by
                rw [he] at hlook₂
                exact (Option.some.inj hlook₂).symm
              have hb := saveRequest_coveringSum_le
                { br with status := Status.approved, approved_by := some actor,
                          approved_date := some now }
                br.equipment_id t br.pk rfl br.borrow_from br.borrow_until
                s.requests hwf
                (fun x hx hxpk =>
                  coveringContrib_le_overlapContrib br t x ht1 ht2 hxpk)
              have hc := (check_availability_iff s.requests e br).mp hca
              have hq : coveringContrib br.equipment_id t
                  { br with status := Status.approved, approved_by := some actor,
                            approved_date := some now } ≤ br.quantity :=
                coveringContrib_le_quantity _ _ _
              have hfin : coveringSum (saveRequest s.requests
                  { br with status := Status.approved, approved_by := some actor,
                            approved_date := some now }) br.equipment_id t ≤
                  e₂.total_quantity := by
                rw [he₂]
                omega
              exact hfin
            · have h0 : coveringContrib eid₂ t
                  { br with status := Status.approved, approved_by := some actor,
                            approved_date := some now } = 0 := by
                unfold coveringContrib
                rw [if_neg]
                intro hcond
                exact hque ⟨hcond.1.symm, hcond.2.2.1, hcond.2.2.2⟩
              have hfin : coveringSum (saveRequest s.requests
                  { br with status := Status.approved, approved_by := some actor,
                            approved_date := some now }) eid₂ t ≤
                  e₂.total_quantity :=
                le_trans (saveRequest_coveringSum_le_of_zero _ _ _ _ h0)
                  (hinv eid₂ e₂ hlook₂ t)
              exact hfin

theorem reject_ok_inv {s : State} {pk actor : Nat} {reason : String} {now : Int}
    {s' : State} (hwf : wellFormed s) (hinv : capacityInvariant s)
    (h : reject s pk actor reason now = .ok s') :
    wellFormed s' ∧ capacityInvariant s' := by
  unfold reject at h
  split at h
  · simp at h
  case _ br hf =>
    split at h
    · simp at h
    case _ hst =>
      injection h with h2
      subst h2
      refine ⟨?_, ?_⟩
      · have hnd : ((saveRequest s.requests
            { br with status := Status.rejected, rejection_reason := reason,
                      approved_by := some actor,
                      approved_date := some now }).map (fun r => r.pk)).Nodup := by
          rw [saveRequest_map_pk]
          exact hwf
        exact hnd
      · intro eid₂ e₂ hlook t
        have hlook₂ : getEquipment s eid₂ = some e₂ := hlook
        have h0 : coveringContrib eid₂ t
            { br with status := Status.rejected, rejection_reason := reason,
                      approved_by := some actor, approved_date := some now } = 0 :=
          coveringContrib_zero_of_status _ _ _ (by simp)
        have hfin : coveringSum (saveRequest s.requests
            { br with status := Status.rejected, rejection_reason := reason,
                      approved_by := some actor, approved_date := some now })
            eid₂ t ≤ e₂.total_quantity :=
          le_trans (saveRequest_coveringSum_le_of_zero _ _ _ _ h0)
            (hinv eid₂ e₂ hlook₂ t)
        exact hfin

theorem createRequest_ok_inv {s : State} {eid₀ q : Nat} {f u now : Int}
    {s' : State} (hwf : wellFormed s) (hinv : capacityInvariant s)
    (h : createRequest s eid₀ q f u now = .ok s') :
    wellFormed s' ∧ capacityInvariant s' := by
  unfold createRequest at h
  split at h
  · simp at h
  case _ e he =>
    split at h
    · simp at h
    case _ hv =>
      simp only [] at h
      split at h
      case isFalse => simp at h
      case isTrue hca =>
        injection h with h2
        subst h2
        refine ⟨?_, ?_⟩
        · have hnd : ((s.requests ++
              [({ pk := freshPk s.requests, equipment_id := eid₀, quantity := q,
                  status := Status.pending, borrow_from := f,
                  borrow_until := u } : BorrowRequest)]).map (fun r => r.pk)).Nodup := by
            rw [List.map_append, List.nodup_append]
            refine ⟨hwf, by simp, ?_⟩
            intro a ha hb
            simp only [List.map_cons, List.map_nil, List.mem_singleton] at hb
            exact freshPk_not_mem s.requests (hb ▸ ha)
          exact hnd
        · intro eid₂ e₂ hlook t
          have hlook₂ : getEquipment s eid₂ = some e₂ := hlook
          have h0 : coveringContrib eid₂ t
              ({ pk := freshPk s.requests, equipment_id := eid₀, quantity := q,
                 status := Status.pending, borrow_from := f,
                 borrow_until := u } : BorrowRequest) = 0 :=
            coveringContrib_zero_of_status _ _ _ (by simp)
          have hone : coveringSum
              [({ pk := freshPk s.requests, equipment_id := eid₀, quantity := q,
                  status := Status.pending, borrow_from := f,
                  borrow_until := u } : BorrowRequest)] eid₂ t = 0 := by
            unfold coveringSum
            simp [h0]
          have hfin : coveringSum (s.requests ++
              [({ pk := freshPk s.requests, equipment_id := eid₀, quantity := q,
                  status := Status.pending, borrow_from := f,
                  borrow_until := u } : BorrowRequest)]) eid₂ t ≤
              e₂.total_quantity := by
            rw [coveringSum_append, hone]
            simpa using hinv eid₂ e₂ hlook₂ t
          exact hfin

theorem issue_ok_inv {s : State} {pk : Nat} {now : Int} {s' : State}
    (hwf : wellFormed s) (hinv : capacityInvariant s)
    (h : issue s pk now = .ok s') :
    wellFormed s' ∧ capacityInvariant s' := by
  unfold issue at h
  split at h
  · simp at h
  case _ br hf =>
    split at h
    · simp at h
    case _ hst =>
      push_neg at hst
      split at h
      · simp at h
      case _ e he =>
        split at h
        case isTrue => simp at h
        case isFalse hge =>
          injection h with h2
          subst h2
          have hmem := findRequest_mem hf
          refine ⟨?_, ?_⟩
          · have hnd : ((saveRequest s.requests
                { br with status := Status.issued,
                          issued_date := some now }).map (fun r => r.pk)).Nodup := by
              rw [saveRequest_map_pk]
              exact hwf
            exact hnd
          · intro eid₂ e₂ hlook t
            have hcongr : coveringSum (saveRequest s.requests
                { br with status := Status.issued, issued_date := some now })
                eid₂ t = coveringSum s.requests eid₂ t := by
              apply saveRequest_coveringSum_congr
              intro x hx hxpk
              have hxbr : x = br := pk_inj_of_nodup hwf hx hmem hxpk
              rw [hxbr]
              exact coveringContrib_issue br now hst eid₂ t
            have hlook₂ : (writeEquipment s.equipments br.equipment_id
                (Equipment.save { e with available_quantity :=
                  e.available_quantity - (br.quantity : Int) })).lookup eid₂
                = some e₂ := hlook
            rw [lookup_writeEquipment] at hlook₂
            by_cases heq : eid₂ = br.equipment_id
            · rw [if_pos heq] at hlook₂
              rcases Option.map_eq_some'.mp hlook₂ with ⟨w, hw1, hw2⟩
              have htot : e₂.total_quantity = e.total_quantity := by
                rw [← hw2, Equipment.save_total]
              have hfin : coveringSum (saveRequest s.requests
                  { br with status := Status.issued, issued_date := some now })
                  eid₂ t ≤ e₂.total_quantity := by
                rw [hcongr, htot]
                have := hinv br.equipment_id e he t
                rw [heq]
                exact this
              exact hfin
            · rw [if_neg heq] at hlook₂
              have hfin : coveringSum (saveRequest s.requests
                  { br with status := Status.issued, issued_date := some now })
                  eid₂ t ≤ e₂.total_quantity := by
                rw [hcongr]
                exact hinv eid₂ e₂ hlook₂ t
              exact hfin

theorem return_ok_inv {s : State} {pk : Nat} {notes : String} {now : Int}
    {s' : State} (hwf : wellFormed s) (hinv : capacityInvariant s)
    (h : return_equipment s pk notes now = .ok s') :
    wellFormed s' ∧ capacityInvariant s' := by
  unfold return_equipment at h
  split at h
  · simp at h
  case _ br hf =>
    split at h
    · simp at h
    case _ hst =>
      split at h
      · simp at h
      case _ e he =>
        injection h with h2
        subst h2
        refine ⟨?_, ?_⟩
        · have hnd : ((saveRequest s.requests
              { br with status := Status.returned, returned_date := some now,
                        notes := if notes ≠ "" then notes else br.notes }).map
                (fun r => r.pk)).Nodup := by
            rw [saveRequest_map_pk]
            exact hwf
          exact hnd
        · intro eid₂ e₂ hlook t
          have h0 : coveringContrib eid₂ t
              { br with status := Status.returned, returned_date := some now,
                        notes := if notes ≠ "" then notes else br.notes } = 0 :=
            coveringContrib_zero_of_status _ _ _ (by simp)
          have hle := saveRequest_coveringSum_le_of_zero s.requests
            { br with status := Status.returned, returned_date := some now,
                      notes := if notes ≠ "" then notes else br.notes } eid₂ t h0
          have hlook₂ : (writeEquipment s.equipments br.equipment_id
              (Equipment.save { e with available_quantity :=
                e.available_quantity + (br.quantity : Int) })).lookup eid₂
              = some e₂ := hlook
          rw [lookup_writeEquipment] at hlook₂
          by_cases heq : eid₂ = br.equipment_id
          · rw [if_pos heq] at hlook₂
            rcases Option.map_eq_some'.mp hlook₂ with ⟨w, hw1, hw2⟩
            have htot : e₂.total_quantity = e.total_quantity := by
              rw [← hw2, Equipment.save_total]
            have hfin : coveringSum (saveRequest s.requests
                { br with status := Status.returned, returned_date := some now,
                          notes := if notes ≠ "" then notes else br.notes })
                eid₂ t ≤ e₂.total_quantity := by
              refine le_trans hle ?_
              rw [htot]
              have := hinv br.equipment_id e he t
              rw [heq]
              exact this
            exact hfin
          · rw [if_neg heq] at hlook₂
            have hfin : coveringSum (saveRequest s.requests
                { br with status := Status.returned, returned_date := some now,
                          notes := if notes ≠ "" then notes else br.notes })
                eid₂ t ≤ e₂.total_quantity :=
              le_trans hle (hinv eid₂ e₂ hlook₂ t)
            exact hfin

theorem applyOp_capacity (s : State) (op : Op) (hwf : wellFormed s)
    (hinv : capacityInvariant s) :
    wellFormed (applyOp s op) ∧ capacityInvariant (applyOp s op) := by
  cases op with
  | create eid q f u now =>
    rcases hex : createRequest s eid q f u now with err | s₁
    · have hred : applyOp s (Op.create eid q f u now) = s := by
        unfold applyOp
        simp only [execOp]
        rw [hex]
      rw [hred]
      exact ⟨hwf, hinv⟩
    · have hred : applyOp s (Op.create eid q f u now) = s₁ := by
        unfold applyOp
        simp only [execOp]
        rw [hex]
      rw [hred]
      exact createRequest_ok_inv hwf hinv hex
  | approve pk actor now =>
    rcases hex : approve s pk actor now with err | s₁
    · have hred : applyOp s (Op.approve pk actor now) = s := by
        unfold applyOp
        simp only [execOp]
        rw [hex]
      rw [hred]
      exact ⟨hwf, hinv⟩
    · have hred : applyOp s (Op.approve pk actor now) = s₁ := by
        unfold applyOp
        simp only [execOp]
        rw [hex]
      rw [hred]
      exact approve_ok_inv hwf hinv hex
  | reject pk actor reason now =>
    rcases hex : reject s pk actor reason now with err | s₁
    · have hred : applyOp s (Op.reject pk actor reason now) = s := by
        unfold applyOp
        simp only [execOp]
        rw [hex]
      rw [hred]
      exact ⟨hwf, hinv⟩
    · have hred : applyOp s (Op.reject pk actor reason now) = s₁ := by
        unfold applyOp
        simp only [execOp]
        rw [hex]
      rw [hred]
      exact reject_ok_inv hwf hinv hex
  | issue pk now =>
    rcases hex : issue s pk now with err | s₁
    · have hred : applyOp s (Op.issue pk now) = s := by
        unfold applyOp
        simp only [execOp]
        rw [hex]
      rw [hred]
      exact ⟨hwf, hinv⟩
    · have hred : applyOp s (Op.issue pk now) = s₁ := by
        unfold applyOp
        simp only [execOp]
        rw [hex]
      rw [hred]
      exact issue_ok_inv hwf hinv hex
  | ret pk notes now =>
    rcases hex : return_equipment s pk notes now with err | s₁
    · have hred : applyOp s (Op.ret pk notes now) = s := by
        unfold applyOp
        simp only [execOp]
        rw [hex]
      rw [hred]
      exact ⟨hwf, hinv⟩
    · have hred : applyOp s (Op.ret pk notes now) = s₁ := by
        unfold applyOp
        simp only [execOp]
        rw [hex]
      rw [hred]
      exact return_ok_inv hwf hinv hex

theorem runOps_capacity (ops : List Op) (s : State) (hwf : wellFormed s)
    (hinv : capacityInvariant s) :
    wellFormed (runOps s ops) ∧ capacityInvariant (runOps s ops) := by
  induction ops generalizing s with
  | nil => exact ⟨hwf, hinv⟩
  | cons op rest ih =>
    have h := applyOp_capacity s op hwf hinv
    exact ih (applyOp s op) h.1 h.2


theorem availInvariant_eq {s s' : State} (heq : s'.equipments = s.equipments)
    (hinv : availInvariant s) : availInvariant s' := by
  intro eid e he
  apply hinv eid e
  unfold getEquipment at he ⊢
  rw [← heq]
  exact he

theorem createRequest_equipments {s : State} {eid₀ q : Nat} {f u now : Int}
    {s' : State} (h : createRequest s eid₀ q f u now = .ok s') :
    s'.equipments = s.equipments := by
  unfold createRequest at h
  split at h
  · simp at h
  case _ e he =>
    split at h
    · simp at h
    case _ hv =>
      simp only [] at h
      split at h
      case isFalse => simp at h
      case isTrue hca =>
        injection h with h2
        subst h2
        rfl

theorem approve_equipments {s : State} {pk actor : Nat} {now : Int} {s' : State}
    (h : approve s pk actor now = .ok s') : s'.equipments = s.equipments := by
  unfold approve at h
  split at h
  · simp at h
  case _ br hf =>
    split at h
    · simp at h
    case _ hst =>
      split at h
      · simp at h
      case _ e he =>
        split at h
        case isFalse => simp at h
        case isTrue hca =>
          injection h with h2
          subst h2
          rfl

theorem reject_equipments {s : State} {pk actor : Nat} {reason : String}
    {now : Int} {s' : State} (h : reject s pk actor reason now = .ok s') :
    s'.equipments = s.equipments := by
  unfold reject at h
  split at h
  · simp at h
  case _ br hf =>
    split at h
    · simp at h
    case _ hst =>
      injection h with h2
      subst h2
      rfl

theorem issue_ok_avail {s : State} {pk : Nat} {now : Int} {s' : State}
    (hinv : availInvariant s) (h : issue s pk now = .ok s') :
    availInvariant s' := by
  unfold issue at h
  split at h
  · simp at h
  case _ br hf =>
    split at h
    · simp at h
    case _ hst =>
      split at h
      · simp at h
      case _ e he =>
        split at h
        case isTrue => simp at h
        case isFalse hge =>
          injection h with h2
          subst h2
          intro eid₂ e₂ hlook
          have hlook₂ : (writeEquipment s.equipments br.equipment_id
              (Equipment.save { e with available_quantity :=
                e.available_quantity - (br.quantity : Int) })).lookup eid₂
              = some e₂ := hlook
          rw [lookup_writeEquipment] at hlook₂
          by_cases heq : eid₂ = br.equipment_id
          · rw [if_pos heq] at hlook₂
            rcases Option.map_eq_some'.mp hlook₂ with ⟨w, hw1, hw2⟩
            subst hw2
            have hb := Equipment.save_bounds
              { e with available_quantity :=
                  e.available_quantity - (br.quantity : Int) }
              (by
                show (0 : Int) ≤ e.available_quantity - (br.quantity : Int)
                push_neg at hge
                omega)
            exact ⟨hb.1, hb.2.1⟩
          · rw [if_neg heq] at hlook₂
            exact hinv eid₂ e₂ hlook₂

theorem return_ok_avail {s : State} {pk : Nat} {notes : String} {now : Int}
    {s' : State} (hinv : availInvariant s)
    (h : return_equipment s pk notes now = .ok s') :
    availInvariant s' := by
  unfold return_equipment at h
  split at h
  · simp at h
  case _ br hf =>
    split at h
    · simp at h
    case _ hst =>
      split at h
      · simp at h
      case _ e he =>
        injection h with h2
        subst h2
        intro eid₂ e₂ hlook
        have h0 := (hinv br.equipment_id e he).1
        have hlook₂ : (writeEquipment s.equipments br.equipment_id
            (Equipment.save { e with available_quantity :=
              e.available_quantity + (br.quantity : Int) })).lookup eid₂
            = some e₂ := hlook
        rw [lookup_writeEquipment] at hlook₂
        by_cases heq : eid₂ = br.equipment_id
        · rw [if_pos heq] at hlook₂
          rcases Option.map_eq_some'.mp hlook₂ with ⟨w, hw1, hw2⟩
          subst hw2
          have hb := Equipment.save_bounds
            { e with available_quantity :=
                e.available_quantity + (br.quantity : Int) }
            (by
              show (0 : Int) ≤ e.available_quantity + (br.quantity : Int)
              have hq : (0 : Int) ≤ (br.quantity : Int) := Int.ofNat_nonneg _
              omega)
          exact ⟨hb.1, hb.2.1⟩
        · rw [if_neg heq] at hlook₂
          exact hinv eid₂ e₂ hlook₂

theorem applyOp_avail (s : State) (op : Op) (hinv : availInvariant s) :
    availInvariant (applyOp s op) := by
  cases op with
  | create eid q f u now =>
    rcases hex : createRequest s eid q f u now with err | s₁
    · have hred : applyOp s (Op.create eid q f u now) = s := by
        unfold applyOp
        simp only [execOp]
        rw [hex]
      rw [hred]
      exact hinv
    · have hred : applyOp s (Op.create eid q f u now) = s₁ := by
        unfold applyOp
        simp only [execOp]
        rw [hex]
      rw [hred]
      exact availInvariant_eq (createRequest_equipments hex) hinv
  | approve pk actor now =>
    rcases hex : approve s pk actor now with err | s₁
    · have hred : applyOp s (Op.approve pk actor now) = s := by
        unfold applyOp
        simp only [execOp]
        rw [hex]
      rw [hred]
      exact hinv
    · have hred : applyOp s (Op.approve pk actor now) = s₁ := by
        unfold applyOp
        simp only [execOp]
        rw [hex]
      rw [hred]
      exact availInvariant_eq (approve_equipments hex) hinv
  | reject pk actor reason now =>
    rcases hex : reject s pk actor reason now with err | s₁
    · have hred : applyOp s (Op.reject pk actor reason now) = s := by
        unfold applyOp
        simp only [execOp]
        rw [hex]
      rw [hred]
      exact hinv
    · have hred : applyOp s (Op.reject pk actor reason now) = s₁ := by
        unfold applyOp
        simp only [execOp]
        rw [hex]
      rw [hred]
      exact availInvariant_eq (reject_equipments hex) hinv
  | issue pk now =>
    rcases hex : issue s pk now with err | s₁
    · have hred : applyOp s (Op.issue pk now) = s := by
        unfold applyOp
        simp only [execOp]
        rw [hex]
      rw [hred]
      exact hinv
    · have hred : applyOp s (Op.issue pk now) = s₁ := by
        unfold applyOp
        simp only [execOp]
        rw [hex]
      rw [hred]
      exact issue_ok_avail hinv hex
  | ret pk notes now =>
    rcases hex : return_equipment s pk notes now with err | s₁
    · have hred : applyOp s (Op.ret pk notes now) = s := by
        unfold applyOp
        simp only [execOp]
        rw [hex]
      rw [hred]
      exact hinv
    · have hred : applyOp s (Op.ret pk notes now) = s₁ := by
        unfold applyOp
        simp only [execOp]
        rw [hex]
      rw [hred]
      exact return_ok_avail hinv hex


theorem applyOp_of_error (s : State) (op : Op) (err : ErrResponse)
    (h : execOp s op = .error err) : applyOp s op = s := by
  unfold applyOp
  rw [h]

theorem issue_eq_ok {s : State} {pk : Nat} {now : Int} {br : BorrowRequest}
    {e : Equipment} (hbr : findRequest s pk = some br)
    (hst : br.status = Status.approved)
    (he : getEquipment s br.equipment_id = some e)
    (hge : ¬ e.available_quantity < (br.quantity : Int)) :
    issue s pk now = Except.ok
      { equipments := writeEquipment s.equipments br.equipment_id
          (Equipment.save { e with available_quantity :=
            e.available_quantity - (br.quantity : Int) }),
        requests := saveRequest s.requests
          { br with status := Status.issued, issued_date := some now } } := by
  unfold issue
  rw [hbr]
  simp only []
  rw [if_neg (by simp [hst]), he]
  simp only []
  rw [if_neg hge]

theorem issue_eq_error_status {s : State} {pk : Nat} {now : Int}
    {br : BorrowRequest} (hbr : findRequest s pk = some br)
    (hst : br.status ≠ Status.approved) :
    issue s pk now =
      Except.error ⟨"Only approved requests can be issued", 400⟩ := by
  unfold issue
  rw [hbr]
  simp only []
  rw [if_pos hst]

theorem issue_eq_error_stock {s : State} {pk : Nat} {now : Int}
    {br : BorrowRequest} {e : Equipment} (hbr : findRequest s pk = some br)
    (hst : br.status = Status.approved)
    (he : getEquipment s br.equipment_id = some e)
    (hlt : e.available_quantity < (br.quantity : Int)) :
    issue s pk now = Except.error ⟨"Insufficient equipment quantity", 400⟩ := by
  unfold issue
  rw [hbr]
  simp only []
  rw [if_neg (by simp [hst]), he]
  simp only []
  rw [if_pos hlt]

theorem return_eq_ok {s : State} {pk : Nat} {notes : String} {now : Int}
    {br : BorrowRequest} {e : Equipment} (hbr : findRequest s pk = some br)
    (hst : br.status = Status.issued ∨ br.status = Status.overdue)
    (he : getEquipment s br.equipment_id = some e) :
    return_equipment s pk notes now = Except.ok
      { equipments := writeEquipment s.equipments br.equipment_id
          (Equipment.save { e with available_quantity :=
            e.available_quantity + (br.quantity : Int) }),
        requests := saveRequest s.requests
          { br with status := Status.returned, returned_date := some now,
                    notes := if notes ≠ "" then notes else br.notes } } := by
  unfold return_equipment
  rw [hbr]
  simp only []
  rw [if_neg (not_not_intro hst), he]

theorem return_eq_error {s : State} {pk : Nat} {notes : String} {now : Int}
    {br : BorrowRequest} (hbr : findRequest s pk = some br)
    (hst : ¬ (br.status = Status.issued ∨ br.status = Status.overdue)) :
    return_equipment s pk notes now =
      Except.error ⟨"Only issued requests can be returned", 400⟩ := by
  unfold return_equipment
  rw [hbr]
  simp only []
  rw [if_pos hst]

theorem approve_eq_error_status {s : State} {pk actor : Nat} {now : Int}
    {br : BorrowRequest} (hbr : findRequest s pk = some br)
    (hst : br.status ≠ Status.pending) :
    approve s pk actor now =
      Except.error ⟨"Only pending requests can be approved", 400⟩ := by
  unfold approve
  rw [hbr]
  simp only []
  rw [if_pos hst]

theorem save_avail_char (e : Equipment) (v : Int) :
    (Equipment.save { e with available_quantity := v }).available_quantity =
      if v > (e.total_quantity : Int) then (e.total_quantity : Int) else v := by
  unfold Equipment.save
  split
  case isTrue h => rfl
  case isFalse h => rfl


/-- Claim C1: starting from any store with unique request keys in which the core
capacity invariant holds, every sequence of create, approve, reject, issue
and return operations preserves it: for every equipment item and every
instant, the summed quantity of approved/issued requests covering that
instant stays at most the item's total quantity. -/
theorem capacity_invariant_preserved (s : State) (ops : List Op)
    (hwf : wellFormed s) (hinv : capacityInvariant s) :
    capacityInvariant (runOps s ops) :=
  (runOps_capacity ops s hwf hinv).2

/-- Claim C1 witness: a concrete run (create 2 units, approve, issue, return)
from the empty store. -/
theorem capacity_invariant_preserved_witness :
    wellFormed emptyState ∧ capacityInvariant emptyState ∧
    capacityInvariant (runOps emptyState
      [Op.create 1 2 10 20 0, Op.approve 1 5 1, Op.issue 1 2,
       Op.ret 1 "ok" 3]) := by
  have hinv0 : capacityInvariant emptyState := by
    intro eid e hl t
    show coveringSum [] eid t ≤ e.total_quantity
    exact Nat.zero_le _
  exact ⟨List.Pairwise.nil, hinv0,
    capacity_invariant_preserved emptyState
      [Op.create 1 2 10 20 0, Op.approve 1 5 1, Op.issue 1 2, Op.ret 1 "ok" 3]
      List.Pairwise.nil hinv0⟩

/-- Claim C2: `check_availability` returns true iff the equipment's total
quantity minus the summed quantities of stored approved/issued requests
overlapping the candidate half-open interval (the candidate's own key
excluded) is at least the candidate quantity; and a stored request whose
interval merely touches the candidate's at an endpoint never changes the
outcome. -/
theorem check_availability_correct (reqs : List BorrowRequest)
    (e : Equipment) (self : BorrowRequest) :
    (check_availability reqs e self = true ↔
      (e.total_quantity : Int) -
        (overlapSumSpec reqs self.equipment_id self.borrow_from
          self.borrow_until (some self.pk) : Int) ≥ (self.quantity : Int)) ∧
    (∀ r : BorrowRequest,
      r.borrow_until = self.borrow_from ∨ r.borrow_from = self.borrow_until →
      check_availability (r :: reqs) e self =
        check_availability reqs e self) := by
  refine ⟨check_availability_iff reqs e self, ?_⟩
  intro r hr
  have h0 : overlapContribSpec self.equipment_id self.borrow_from
      self.borrow_until (some self.pk) r = 0 := by
    unfold overlapContribSpec
    rw [if_neg]
    intro hc
    obtain ⟨-, -, h3, h4, -⟩ := hc
    rcases hr with h | h
    · omega
    · omega
  have hsum : overlapSumSpec (r :: reqs) self.equipment_id self.borrow_from
      self.borrow_until (some self.pk) =
      overlapSumSpec reqs self.equipment_id self.borrow_from
        self.borrow_until (some self.pk) := by
    unfold overlapSumSpec
    simp [h0]
  rw [check_availability_eq, check_availability_eq, hsum]

/-- Claim C2 witness: a stored request ending exactly where the candidate starts
does not affect the availability outcome. -/
theorem check_availability_correct_witness :
    (touchStored.borrow_until = touchCandidate.borrow_from ∨
      touchStored.borrow_from = touchCandidate.borrow_until) ∧
    check_availability [touchStored] demoEquipment touchCandidate =
      check_availability [] demoEquipment touchCandidate := by
  have h := check_availability_correct [] demoEquipment touchCandidate
  exact ⟨Or.inl (by decide), h.2 touchStored (Or.inl (by decide))⟩

/-- Claim C5 (amended): approving a request whose status is not pending fails
with the error "Only pending requests can be approved" carrying HTTP
status 400 (the source returns 400, not 409), and the store is unchanged. -/
theorem approve_non_pending_fails (s : State) (pk actor : Nat) (now : Int)
    (br : BorrowRequest) (hbr : findRequest s pk = some br)
    (hst : br.status ≠ Status.pending) :
    approve s pk actor now =
      Except.error ⟨"Only pending requests can be approved", 400⟩ ∧
    applyOp s (Op.approve pk actor now) = s :=
  ⟨approve_eq_error_status hbr hst,
   applyOp_of_error s (Op.approve pk actor now) _
     (approve_eq_error_status hbr hst)⟩

/-- Claim C5 witness: the amended statement at the demo store, whose request 1
is approved (hence non-pending). -/
theorem approve_non_pending_fails_witness :
    demoRequest.status ≠ Status.pending ∧
    (approve demoState 1 7 0 =
      Except.error ⟨"Only pending requests can be approved", 400⟩ ∧
     applyOp demoState (Op.approve 1 7 0) = demoState) :=
  ⟨by decide, approve_non_pending_fails demoState 1 7 0 demoRequest rfl
    (by decide)⟩

/-- Claim C5 counterexample: approving the non-pending request of `demoState`
is rejected with HTTP status 400, not the 409 the claim states. -/
theorem approve_non_pending_http_400 :
    httpStatusOf (approve demoState 1 7 0) = some 400 ∧
    httpStatusOf (approve demoState 1 7 0) ≠ some 409 := by
  constructor
  · rfl
  · decide

/-- Claim C8: every operation preserves the counter bounds
`0 ≤ available_quantity ≤ total_quantity` on every stored equipment row:
issue decrements only under the stock guard, and the write-time clamp
corrects any value above the total down to the total. -/
theorem avail_bounds_preserved (s : State) (op : Op)
    (hinv : availInvariant s) : availInvariant (applyOp s op) :=
  applyOp_avail s op hinv

/-- Claim C8 witness: the bounds hold on the demo store and are preserved by
issuing its approved request. -/
theorem avail_bounds_preserved_witness :
    availInvariant demoState ∧
    availInvariant (applyOp demoState (Op.issue 1 0)) := by
  have h0 : availInvariant demoState := by
    intro eid e hl
    have hl₂ : List.lookup eid [(1, demoEquipment)] = some e := hl
    rw [List.lookup_cons] at hl₂
    split at hl₂
    · injection hl₂ with h
      subst h
      exact ⟨by decide, by decide⟩
    · simp at hl₂
  exact ⟨h0, avail_bounds_preserved demoState (Op.issue 1 0) h0⟩

/-- Claim C9: creating an equipment item through the API initializes
`available_quantity` to the supplied `total_quantity`, and any
client-supplied `available_quantity` is ignored (the field is read-only at
the API surface). -/
theorem equipment_create_correct :
    ∀ p : EquipmentCreatePayload,
      (equipmentSerializerCreate p).available_quantity =
        (p.total_quantity : Int) ∧
      (∀ a : Option Int,
        equipmentSerializerCreate { p with available_quantity := a } =
          equipmentSerializerCreate p) := by
  intro p
  exact ⟨rfl, fun a => rfl⟩

/-- Claim C10: the read-only availability query returns exactly the total
quantity minus the summed quantities of all approved/issued requests
overlapping the queried window — no request excluded, no clamping — and on
an over-committed store the returned value is negative. -/
theorem availability_correct :
    (∀ (reqs : List BorrowRequest) (eid : Nat) (e : Equipment)
      (a b : Int),
      availability reqs eid e a b =
        (e.total_quantity : Int) - (overlapSumSpec reqs eid a b none : Int)) ∧
    availability overCommitReqs 1 demoEquipment 0 10 < 0 := by
  refine ⟨fun reqs eid e a b => availability_eq reqs eid e a b, ?_⟩
  decide


theorem issue_ok_post (s : State) (pk : Nat) (now : Int)
    (br : BorrowRequest) (e : Equipment) (hbr : findRequest s pk = some br)
    (he : getEquipment s br.equipment_id = some e)
    (hb : e.available_quantity ≤ (e.total_quantity : Int))
    (hst : br.status = Status.approved)
    (hq : (br.quantity : Int) ≤ e.available_quantity) :
    ∃ s', issue s pk now = Except.ok s' ∧
      getEquipment s' br.equipment_id =
        some { e with available_quantity :=
          e.available_quantity - (br.quantity : Int) } ∧
      findRequest s' pk =
        some { br with status := Status.issued, issued_date := some now } := by
  have hge : ¬ e.available_quantity < (br.quantity : Int) := by omega
  have hsave : Equipment.save { e with available_quantity :=
      e.available_quantity - (br.quantity : Int) } =
      { e with available_quantity :=
        e.available_quantity - (br.quantity : Int) } := by
    apply Equipment.save_eq_self
    show e.available_quantity - (br.quantity : Int) ≤ (e.total_quantity : Int)
    have := Int.ofNat_nonneg br.quantity
    omega
  have hissue := @issue_eq_ok s pk now br e hbr hst he hge
  rw [hsave] at hissue
  refine ⟨_, hissue, ?_, ?_⟩
  · show (writeEquipment s.equipments br.equipment_id
        { e with available_quantity :=
          e.available_quantity - (br.quantity : Int) }).lookup
        br.equipment_id = _
    rw [lookup_writeEquipment, if_pos rfl]
    have he₂ : s.equipments.lookup br.equipment_id = some e := he
    rw [he₂]
    rfl
  · exact find_saveRequest s.requests pk br _ hbr
      ((findRequest_pk_eq hbr : br.pk = pk))

theorem return_ok_post (s : State) (pk : Nat) (notes : String) (now : Int)
    (br : BorrowRequest) (e : Equipment) (hbr : findRequest s pk = some br)
    (he : getEquipment s br.equipment_id = some e)
    (hst : br.status = Status.issued ∨ br.status = Status.overdue) :
    ∃ s', return_equipment s pk notes now = Except.ok s' ∧
      getEquipment s' br.equipment_id =
        some (Equipment.save { e with available_quantity :=
          e.available_quantity + (br.quantity : Int) }) ∧
      findRequest s' pk = some { br with
        status := Status.returned, returned_date := some now,
        notes := if notes ≠ "" then notes else br.notes } := by
  have hret := @return_eq_ok s pk notes now br e hbr hst he
  refine ⟨_, hret, ?_, ?_⟩
  · show (writeEquipment s.equipments br.equipment_id
        (Equipment.save { e with available_quantity :=
          e.available_quantity + (br.quantity : Int) })).lookup
        br.equipment_id = _
    rw [lookup_writeEquipment, if_pos rfl]
    have he₂ : s.equipments.lookup br.equipment_id = some e := he
    rw [he₂]
    rfl
  · exact find_saveRequest s.requests pk br _ hbr
      ((findRequest_pk_eq hbr : br.pk = pk))

/-- Claim C3: on a stored equipment row (which the write-time clamp keeps at
`available_quantity ≤ total_quantity`), issue succeeds iff the request is
approved and stock-on-hand covers its quantity; on success the counter
drops by exactly the request's quantity, the status becomes issued and the
issue time is stamped; on either failure an error is returned and the
store is unchanged. -/
theorem issue_correct (s : State) (pk : Nat) (now : Int) (br : BorrowRequest)
    (e : Equipment) (hbr : findRequest s pk = some br)
    (he : getEquipment s br.equipment_id = some e)
    (hb : e.available_quantity ≤ (e.total_quantity : Int)) :
    (br.status = Status.approved ∧
        (br.quantity : Int) ≤ e.available_quantity →
      ∃ s', issue s pk now = Except.ok s' ∧
        getEquipment s' br.equipment_id =
          some { e with available_quantity :=
            e.available_quantity - (br.quantity : Int) } ∧
        findRequest s' pk =
          some { br with status := Status.issued, issued_date := some now }) ∧
    (¬ (br.status = Status.approved ∧
        (br.quantity : Int) ≤ e.available_quantity) →
      (∃ err, issue s pk now = Except.error err) ∧
      applyOp s (Op.issue pk now) = s) := by
  constructor
  · rintro ⟨hst, hq⟩
    exact issue_ok_post s pk now br e hbr he hb hst hq
  · intro hn
    by_cases hst : br.status = Status.approved
    · have hlt : e.available_quantity < (br.quantity : Int) := by
        by_contra hc
        exact hn ⟨hst, by omega⟩
      exact ⟨⟨_, issue_eq_error_stock hbr hst he hlt⟩,
        applyOp_of_error s (Op.issue pk now) _
          (issue_eq_error_stock hbr hst he hlt)⟩
    · exact ⟨⟨_, issue_eq_error_status hbr hst⟩,
        applyOp_of_error s (Op.issue pk now) _
          (issue_eq_error_status hbr hst)⟩

/-- Claim C3 witness: issuing the approved request of the demo store succeeds. -/
theorem issue_correct_witness :
    demoEquipment.available_quantity ≤ (demoEquipment.total_quantity : Int) ∧
    demoRequest.status = Status.approved ∧
    (∃ s', issue demoState 1 0 = Except.ok s') := by
  have h := issue_correct demoState 1 0 demoRequest demoEquipment rfl rfl
    (by decide)
  obtain ⟨s', hs', -, -⟩ := h.1 ⟨rfl, by decide⟩
  exact ⟨by decide, rfl, s', hs'⟩

/-- Claim C4 (amended): return succeeds iff the request is issued or overdue; on
success the counter is incremented by the request's quantity and clamped
so it never exceeds the total, the status becomes returned with the return
time stamped, and the stored notes are replaced by the supplied notes when
those are non-empty (kept unchanged when they are empty); on failure an
error is returned and the store is unchanged. -/
theorem return_correct (s : State) (pk : Nat) (notes : String) (now : Int)
    (br : BorrowRequest) (e : Equipment) (hbr : findRequest s pk = some br)
    (he : getEquipment s br.equipment_id = some e) :
    ((br.status = Status.issued ∨ br.status = Status.overdue) →
      ∃ s', return_equipment s pk notes now = Except.ok s' ∧
        (∃ e₂, getEquipment s' br.equipment_id = some e₂ ∧
          e₂.available_quantity =
            (if e.available_quantity + (br.quantity : Int) >
                (e.total_quantity : Int) then (e.total_quantity : Int)
             else e.available_quantity + (br.quantity : Int)) ∧
          e₂.total_quantity = e.total_quantity ∧
          e₂.available_quantity ≤ (e₂.total_quantity : Int)) ∧
        findRequest s' pk = some { br with
          status := Status.returned,
          returned_date := some now,
          notes := if notes ≠ "" then notes else br.notes }) ∧
    (¬ (br.status = Status.issued ∨ br.status = Status.overdue) →
      (∃ err, return_equipment s pk notes now = Except.error err) ∧
      applyOp s (Op.ret pk notes now) = s) := by
  constructor
  · intro hst
    obtain ⟨s', h1, hg, hf⟩ := return_ok_post s pk notes now br e hbr he hst
    refine ⟨s', h1,
      ⟨Equipment.save { e with available_quantity :=
          e.available_quantity + (br.quantity : Int) }, hg, ?_, ?_, ?_⟩, hf⟩
    · exact save_avail_char e (e.available_quantity + (br.quantity : Int))
    · exact Equipment.save_total _
    · rw [save_avail_char e (e.available_quantity + (br.quantity : Int)),
        Equipment.save_total]
      show (if e.available_quantity + (br.quantity : Int) >
          (e.total_quantity : Int) then (e.total_quantity : Int)
        else e.available_quantity + (br.quantity : Int)) ≤
        (e.total_quantity : Int)
      split
      · omega
      · omega
  · intro hn
    exact ⟨⟨_, return_eq_error hbr hn⟩,
      applyOp_of_error s (Op.ret pk notes now) _ (return_eq_error hbr hn)⟩

/-- Claim C4 witness: returning the issued request of `issuedState` succeeds. -/
theorem return_correct_witness :
    issuedRequest.status = Status.issued ∧
    (∃ s', return_equipment issuedState 1 "done" 9 = Except.ok s') := by
  have h := return_correct issuedState 1 "done" 9 issuedRequest
    issuedEquipment rfl rfl
  obtain ⟨s', hs', -, -⟩ := h.1 (Or.inl rfl)
  exact ⟨rfl, s', hs'⟩

/-- Claim C4 counterexample: returning with notes "new" on a request whose
stored notes are "old" leaves exactly "new" — the supplied notes replace
the stored ones instead of being appended to them. -/
theorem return_notes_replaced :
    notesOf (return_equipment issuedState 1 "new" 9) 1 = some "new" ∧
    some "new" ≠ some ("old" ++ "new") := by
  constructor
  · rfl
  · decide

/-- Claim C6: when the requested interval is inverted, starts in the past, or
the quantity exceeds the equipment total, creation fails with a
validation error (HTTP 400) whose message is not the availability one, the
outcome does not depend on the stored requests (the availability check is
never consulted), and the store is unchanged. -/
theorem create_validation_first (s : State) (eid quantity : Nat)
    (f u now : Int) (e : Equipment) (he : getEquipment s eid = some e)
    (hbad : u ≤ f ∨ f < now ∨ quantity > e.total_quantity) :
    (∃ msg, createRequest s eid quantity f u now = Except.error ⟨msg, 400⟩ ∧
      msg ≠ "Equipment not available for the requested period") ∧
    createRequest s eid quantity f u now =
      createRequest { s with requests := [] } eid quantity f u now ∧
    applyOp s (Op.create eid quantity f u now) = s := by
  have hv : ∃ msg, validate e quantity f u now = some msg ∧
      msg ≠ "Equipment not available for the requested period" := by
    unfold validate
    by_cases h1 : u ≤ f
    · exact ⟨_, by rw [if_pos h1], by decide⟩
    · rw [if_neg h1]
      by_cases h2 : f < now
      · exact ⟨_, by rw [if_pos h2], by decide⟩
      · rw [if_neg h2]
        have h3 : quantity > e.total_quantity := by tauto
        exact ⟨_, by rw [if_pos h3], by decide⟩
  obtain ⟨msg, hm, hne⟩ := hv
  have herr : createRequest s eid quantity f u now =
      Except.error ⟨msg, 400⟩ := by
    unfold createRequest
    rw [he]
    simp only []
    rw [hm]
  have herr₂ : createRequest { s with requests := [] } eid quantity f u now =
      Except.error ⟨msg, 400⟩ := by
    unfold createRequest
    rw [show getEquipment { s with requests := ([] : List BorrowRequest) }
      eid = some e from he]
    simp only []
    rw [hm]
  exact ⟨⟨msg, herr, hne⟩, herr.trans herr₂.symm,
    applyOp_of_error s (Op.create eid quantity f u now) _ herr⟩

/-- Claim C6 witness: requesting 6 units of a 5-unit item fails with the
quantity validation error even though the availability check would also
have failed. -/
theorem create_validation_first_witness :
    ((20 : Int) ≤ 10 ∨ (10 : Int) < 0 ∨ 6 > demoEquipment.total_quantity) ∧
    (∃ msg, createRequest emptyState 1 6 10 20 0 =
        Except.error ⟨msg, 400⟩ ∧
      msg ≠ "Equipment not available for the requested period") := by
  have h := create_validation_first emptyState 1 6 10 20 0 demoEquipment rfl
    (by decide)
  exact ⟨by decide, h.1⟩

/-- Claim C7: from a stored equipment row with `available_quantity = v` within
its total, issuing an approved request of quantity at most `v` and then
returning it restores the counter to exactly `v`. -/
theorem issue_return_roundtrip (s : State) (pk : Nat) (now now₂ : Int)
    (notes : String) (br : BorrowRequest) (e : Equipment)
    (hbr : findRequest s pk = some br)
    (he : getEquipment s br.equipment_id = some e)
    (hst : br.status = Status.approved)
    (hq : (br.quantity : Int) ≤ e.available_quantity)
    (hb : e.available_quantity ≤ (e.total_quantity : Int)) :
    ∃ s₁ s₂, issue s pk now = Except.ok s₁ ∧
      return_equipment s₁ pk notes now₂ = Except.ok s₂ ∧
      ∃ e₂, getEquipment s₂ br.equipment_id = some e₂ ∧
        e₂.available_quantity = e.available_quantity := by
  obtain ⟨s₁, h1, hg1, hf1⟩ := issue_ok_post s pk now br e hbr he hb hst hq
  have hg1b : getEquipment s₁
      ({ br with
          status := Status.issued,
          issued_date := some now } : BorrowRequest).equipment_id =
      some { e with available_quantity :=
        e.available_quantity - (br.quantity : Int) } := hg1
  obtain ⟨s₂, h2, hg2, hf2⟩ := return_ok_post s₁ pk notes now₂
    { br with status := Status.issued, issued_date := some now }
    { e with available_quantity :=
      e.available_quantity - (br.quantity : Int) } hf1 hg1b (Or.inl rfl)
  refine ⟨s₁, s₂, h1, h2,
    Equipment.save { { e with available_quantity :=
        e.available_quantity - (br.quantity : Int) } with
      available_quantity :=
        ({ e with available_quantity :=
          e.available_quantity - (br.quantity : Int) } :
            Equipment).available_quantity +
        (({ br with
            status := Status.issued,
            issued_date := some now } : BorrowRequest).quantity : Int) },
    hg2, ?_⟩
  rw [save_avail_char { e with available_quantity :=
      e.available_quantity - (br.quantity : Int) }
    (({ e with available_quantity :=
        e.available_quantity - (br.quantity : Int) } :
          Equipment).available_quantity +
      (({ br with
          status := Status.issued,
          issued_date := some now } : BorrowRequest).quantity : Int))]
  rw [if_neg (by
    show ¬ (e.available_quantity - (br.quantity : Int) + (br.quantity : Int) >
      (e.total_quantity : Int))
    omega)]
  show e.available_quantity - (br.quantity : Int) + (br.quantity : Int) =
    e.available_quantity
  omega

/-- Claim C7 witness: the round trip on the demo store restores the counter to
5. -/
theorem issue_return_roundtrip_witness :
    demoRequest.status = Status.approved ∧
    (∃ s₁ s₂, issue demoState 1 0 = Except.ok s₁ ∧
      return_equipment s₁ 1 "back" 9 = Except.ok s₂ ∧
      ∃ e₂, getEquipment s₂ demoRequest.equipment_id = some e₂ ∧
        e₂.available_quantity = demoEquipment.available_quantity) := by
  have h := issue_return_roundtrip demoState 1 0 9 "back" demoRequest
    demoEquipment rfl rfl rfl (by decide) (by decide)
  exact ⟨rfl, h⟩

end EquipmentLending
